import Mathlib

set_option maxRecDepth 16384

/-!
Verification of the note-taking service (`src/shared/notes.ts` and the
`NoteService` implementations built on it).

The development shallowly embeds the TypeScript code: the collection state is
passed explicitly, JavaScript strings are Lean `String`s, `JSON.stringify` is
reimplemented character by character, and JavaScript numbers arising from the
relevance-score division are modelled as exact rationals extended with the
`NaN` and `Infinity` points.  External effects (the `crypto.randomUUID`
generator, `fs.mkdir`, `fs.readFile`, `fs.writeFile`) are modelled as explicit
parameters carrying their outcome.
-/

/-! ### JavaScript string primitives -/

/-- Characters matched by the regular-expression class `\s` in JavaScript
(as used by `split(/\s+/)`). -/
def jsIsSpace (c : Char) : Bool :=
  c = ' ' || c = '\t' || c = '\n' || c.toNat = 0x0B || c.toNat = 0x0C || c = '\r' ||
  c.toNat = 0xA0 || c.toNat = 0x1680 || (0x2000 ≤ c.toNat && c.toNat ≤ 0x200A) ||
  c.toNat = 0x2028 || c.toNat = 0x2029 || c.toNat = 0x202F || c.toNat = 0x205F ||
  c.toNat = 0x3000 || c.toNat = 0xFEFF

mutual

/-- Accumulating worker for `splitWs`: `acc` holds the reversed characters of
the token currently being read. -/
def splitWsAux : List Char → List Char → List String
  | [], acc => [String.mk acc.reverse]
  | c :: cs, acc =>
    if jsIsSpace c then String.mk acc.reverse :: splitWsSkip cs
    else splitWsAux cs (c :: acc)

/-- Worker for `splitWs` while inside a whitespace run (the separator has
already produced a token boundary). -/
def splitWsSkip : List Char → List String
  | [] => [""]
  | c :: cs => if jsIsSpace c then splitWsSkip cs else splitWsAux cs [c]

end

/-- `s.split(/\s+/)` in JavaScript: splits at maximal whitespace runs and
keeps the empty fragments produced at the two ends of the string (so the empty
string yields `[""]`, and a leading or trailing run yields a leading or
trailing `""`). -/
def splitWs (s : String) : List String :=
  splitWsAux s.data []

/-- `String.prototype.toLowerCase`, restricted to the per-character mapping
(which agrees with JavaScript on the ASCII range exercised here). -/
def jsToLower (s : String) : String :=
  String.mk (s.data.map Char.toLower)

/-- Does `l` begin with `pre`? -/
def listStartsWith : List Char → List Char → Bool
  | _, [] => true
  | [], _ :: _ => false
  | c :: cs, p :: ps => c == p && listStartsWith cs ps

/-- Does `l` contain `sub` as a contiguous run? -/
def listHasSub : List Char → List Char → Bool
  | [], sub => sub.isEmpty
  | c :: cs, sub => listStartsWith (c :: cs) sub || listHasSub cs sub

/-- `String.prototype.includes`. -/
def jsIncludes (s sub : String) : Bool :=
  listHasSub s.data sub.data

/-- `Array.prototype.join(sep)`. -/
def joinSep (sep : String) : List String → String
  | [] => ""
  | [x] => x
  | x :: y :: xs => x ++ sep ++ joinSep sep (y :: xs)

/-! ### UTF-8 and UTF-16 lengths -/

/-- Total UTF-8 byte length of a character list; `Buffer.from(s).length` is
this applied to the string's characters. -/
def utf8Len : List Char → Nat
  | [] => 0
  | c :: cs => c.utf8Size + utf8Len cs

/-- `Buffer.from(s).length`: the UTF-8 byte length of a string. -/
def byteLen (s : String) : Nat :=
  utf8Len s.data

/-- Number of UTF-16 code units a character occupies in a JavaScript string. -/
def utf16Units (c : Char) : Nat :=
  if c.toNat < 0x10000 then 1 else 2

/-- Total UTF-16 code-unit count of a character list. -/
def utf16LenList : List Char → Nat
  | [] => 0
  | c :: cs => utf16Units c + utf16LenList cs

/-- `s.length` in JavaScript: the UTF-16 code-unit count of a string. -/
def utf16Len (s : String) : Nat :=
  utf16LenList s.data

/-! ### The data model (`src/shared/notes.ts`) -/

/-- A single agent note.  The optional transient `relevanceScore` field of the
source interface is modelled separately (`ScoredNote`): it is populated only
as an output of the relevance search and is never part of a stored note. -/
structure Note where
  id : String
  title : String
  content : List String
  tags : List String
  taskIds : List String
  timestamp : Nat
  lastAccessed : Nat
deriving DecidableEq, Repr

/-- Collection of notes with version tracking. -/
structure NoteCollection where
  notes : List Note
  version : Nat
deriving DecidableEq, Repr

/-- `CURRENT_VERSION` constant of each `NoteService`. -/
def CURRENT_VERSION : Nat := 1

/-- `MAX_NOTES_SIZE` constant: 1 MiB limit for the serialized collection. -/
def MAX_NOTES_SIZE : Nat := 1024 * 1024

/-- A JavaScript number as produced by the relevance-score division: an exact
rational, `NaN`, or `Infinity`. -/
inductive JsNum where
  | num (q : ℚ)
  | nan
  | inf
deriving DecidableEq

/-- The object `{...note, relevanceScore}` returned by `getRelevantNotes`. -/
structure ScoredNote where
  note : Note
  relevanceScore : JsNum
deriving DecidableEq

/-! ### `JSON.stringify` -/

/-- Lower-case hexadecimal digit, as emitted by `JSON.stringify` for control
characters. -/
def hexDigit (n : Nat) : Char :=
  if n < 10 then Char.ofNat (48 + n) else Char.ofNat (87 + n)

/-- Escaping of a single character inside a JSON string literal, following
`JSON.stringify` (quote, backslash, the short control escapes, `\u00XX` for
the remaining control characters, everything else verbatim). -/
def jsonEscChar (c : Char) : List Char :=
  if c = '"' then ['\\', '"']
  else if c = '\\' then ['\\', '\\']
  else if c.toNat = 0x08 then ['\\', 'b']
  else if c = '\t' then ['\\', 't']
  else if c = '\n' then ['\\', 'n']
  else if c.toNat = 0x0C then ['\\', 'f']
  else if c = '\r' then ['\\', 'r']
  else if c.toNat < 0x20 then ['\\', 'u', '0', '0', hexDigit (c.toNat / 16), hexDigit (c.toNat % 16)]
  else [c]

/-- Escaping of a character list inside a JSON string literal. -/
def jsonEscList : List Char → List Char
  | [] => []
  | c :: cs => jsonEscChar c ++ jsonEscList cs

/-- A JSON string literal: `"` + escaped contents + `"`. -/
def jsonQuote (s : String) : String :=
  "\"" ++ String.mk (jsonEscList s.data) ++ "\""

/-- `JSON.stringify` of an array of strings. -/
def stringifyStrList (l : List String) : String :=
  "[" ++ joinSep "," (l.map jsonQuote) ++ "]"

/-- `JSON.stringify` of a note, with the fields in the order in which the
source constructs them. -/
def stringifyNote (n : Note) : String :=
  "\x7b\"id\":" ++ jsonQuote n.id ++
  ",\"title\":" ++ jsonQuote n.title ++
  ",\"content\":" ++ stringifyStrList n.content ++
  ",\"tags\":" ++ stringifyStrList n.tags ++
  ",\"taskIds\":" ++ stringifyStrList n.taskIds ++
  ",\"timestamp\":" ++ toString n.timestamp ++
  ",\"lastAccessed\":" ++ toString n.lastAccessed ++ "\x7d"

/-- `JSON.stringify({notes: ..., version: ...})`. -/
def stringifyCollection (c : NoteCollection) : String :=
  "\x7b\"notes\":[" ++ joinSep "," (c.notes.map stringifyNote) ++
  "],\"version\":" ++ toString c.version ++ "\x7d"

/-! ### Shared pieces of the `NoteService` implementations -/

/-- A failure raised inside a `try` block of `saveNote`: either the capacity
error thrown by the size check, or any other runtime fault (carrying its
JavaScript string rendering). -/
inductive TryFault where
  | capacity
  | other (msg : String)
deriving DecidableEq, Repr

instance {e a : Type} [DecidableEq e] [DecidableEq a] : DecidableEq (Except e a) := fun x y =>
  match x, y with
  | Except.ok v, Except.ok w =>
    if h : v = w then isTrue (by rw [h]) else isFalse (by simp [h])
  | Except.error v, Except.error w =>
    if h : v = w then isTrue (by rw [h]) else isFalse (by simp [h])
  | Except.ok _, Except.error _ => isFalse (by simp)
  | Except.error _, Except.ok _ => isFalse (by simp)

/-- `Array.prototype.findIndex`. -/
def findIndex {α : Type} (p : α → Bool) : List α → Option Nat
  | [] => none
  | x :: xs => if p x then some 0 else (findIndex p xs).map (· + 1)

/-- The string interpolation of an `Error` (as in a template literal). -/
def jsErrorString (e : TryFault) : String :=
  match e with
  | TryFault.capacity => "Error: Notes collection exceeds size limit"
  | TryFault.other m => m

/-! ### The in-memory `NoteService` (`src/services/notes`, first variant) -/

/-- `saveNote` of the in-memory service.  The service state is passed and
returned explicitly; `freshId` is the value `crypto.randomUUID()` would
return.  The capacity check measures the collection with the incoming note
appended (before any id is generated), and its error is re-thrown by the
`catch` block, so it surfaces as `Except.error`. -/
def saveNote (st : NoteCollection) (note : Note) (freshId : String) :
    NoteCollection × Except TryFault Note :=
  let updatedNotes := st.notes ++ [note]
  let collectionSize := byteLen (stringifyCollection ⟨updatedNotes, CURRENT_VERSION⟩)
  if MAX_NOTES_SIZE < collectionSize then
    (st, Except.error TryFault.capacity)
  else
    let note' := if note.id = "" then { note with id := freshId } else note
    match findIndex (fun n => n.id == note'.id) st.notes with
    | some i => (⟨st.notes.set i note', st.version⟩, Except.ok note')
    | none => (⟨st.notes ++ [note'], st.version⟩, Except.ok note')

/-- The `catch` block shared by the in-memory `saveNote` and the second
durable variant: the capacity error is re-thrown, every other fault is logged
and swallowed, returning the input note. -/
def handleSaveError (note : Note) (e : TryFault) : Except TryFault Note :=
  match e with
  | TryFault.capacity => Except.error TryFault.capacity
  | TryFault.other _ => Except.ok note

/-- `getNotes` of the in-memory service. -/
def getNotes (st : NoteCollection) : NoteCollection :=
  ⟨st.notes, CURRENT_VERSION⟩

/-- The searchable content of a note: title, content lines and tags, each
lower-cased, joined with single spaces. -/
def searchableContent (note : Note) : String :=
  joinSep " " (jsToLower note.title :: (note.content.map jsToLower ++ note.tags.map jsToLower))

/-- `searchNotes`: keeps the notes whose searchable content contains every
whitespace-separated term of the lower-cased query. -/
def searchNotes (st : NoteCollection) (query : String) : List Note :=
  let searchTerms := splitWs (jsToLower query)
  st.notes.filter (fun note =>
    searchTerms.all (fun term => jsIncludes (searchableContent note) term))

/-- `new Set(list)` for strings: first occurrences, in insertion order. -/
def addUnique (acc : List String) (x : String) : List String :=
  if x ∈ acc then acc else acc ++ [x]

/-- The underlying ordered list of a JavaScript `Set` built from `tokens`. -/
def termSet (tokens : List String) : List String :=
  tokens.foldl addUnique []

/-- The context term set of `getRelevantNotes`: lower-cased whitespace tokens
longer than 3 characters, deduplicated. -/
def contextTermsOf (taskContext : String) : List String :=
  termSet ((splitWs (jsToLower taskContext)).filter (fun term => 3 < term.length))

/-- The term set of a note: the same tokenization applied to title, content
and tags joined with spaces. -/
def noteTermsOf (note : Note) : List String :=
  termSet ((splitWs (jsToLower (joinSep " " (note.title :: (note.content ++ note.tags))))).filter
    (fun term => 3 < term.length))

/-- JavaScript division of the two counts, producing a number: `0/0` is `NaN`
and `a/0` with `a ≠ 0` is `Infinity` (no divide-by-zero guard exists in the
source); for a non-zero divisor the quotient is the exact rational
`mkRat a b = a / b`. -/
def jsDiv (a b : Nat) : JsNum :=
  if b = 0 then (if a = 0 then JsNum.nan else JsNum.inf) else JsNum.num (mkRat a b)

/-- The scored copy `{...note, relevanceScore}` built by `getRelevantNotes`:
the score is the number of note terms present in the context term set divided
by the larger of the two set sizes. -/
def scoreNote (contextTerms : List String) (note : Note) : ScoredNote :=
  let noteTerms := noteTermsOf note
  let matchCount := (noteTerms.filter (fun term => term ∈ contextTerms)).length
  ⟨note, jsDiv matchCount (max contextTerms.length noteTerms.length)⟩

/-- The comparison `x > t` on a JavaScript number: false for `NaN`. -/
def jsGtNum (x : JsNum) (t : ℚ) : Bool :=
  match x with
  | JsNum.num q => decide (t < q)
  | JsNum.nan => false
  | JsNum.inf => true

/-- The finite value of a score, used by the sort comparator.  Every score
reaching the sort is finite: `NaN` fails the threshold filter and `Infinity`
would require a match count exceeding both set sizes. -/
def scoreQ (x : JsNum) : ℚ :=
  match x with
  | JsNum.num q => q
  | _ => 0

/-- The ordering induced by the comparator
`(a, b) => (b.relevanceScore ?? 0) - (a.relevanceScore ?? 0)`:
`a` may be placed before `b` exactly when its score is at least `b`'s. -/
def scoreGe (a b : ScoredNote) : Prop :=
  scoreQ b.relevanceScore ≤ scoreQ a.relevanceScore

instance : DecidableRel scoreGe := fun a b =>
  inferInstanceAs (Decidable (scoreQ b.relevanceScore ≤ scoreQ a.relevanceScore))

instance : IsTotal ScoredNote scoreGe :=
  ⟨fun a b => le_total (scoreQ b.relevanceScore) (scoreQ a.relevanceScore)⟩

instance : IsTrans ScoredNote scoreGe :=
  ⟨fun _ _ _ h1 h2 => le_trans h2 h1⟩

/-- `getRelevantNotes`: scores every note, keeps the scores strictly above
`0.1`, and sorts descending.  `Array.prototype.sort` is stable and its
comparator here is a total preorder, so it computes exactly the stable
insertion sort. -/
def getRelevantNotes (st : NoteCollection) (taskContext : String) : List ScoredNote :=
  let contextTerms := contextTermsOf taskContext
  let scoredNotes := st.notes.map (scoreNote contextTerms)
  List.insertionSort scoreGe
    (scoredNotes.filter (fun sn => jsGtNum sn.relevanceScore (mkRat 1 10)))

/-! ### The durable `NoteService` (second variant) -/

/-- Outcome of `fs.readFile` + `JSON.parse` on the backing file: the read can
fail (missing file), the parse can fail, or both succeed yielding a document
whose `notes` and `version` members may be absent. -/
inductive ReadOutcome where
  | fileMissing
  | parseFailure
  | parsed (notes : Option (List Note)) (version : Option Nat)

/-- `v || dflt` on a JavaScript number: `undefined` and `0` are falsy. -/
def jsOrNat (v : Option Nat) (dflt : Nat) : Nat :=
  match v with
  | none => dflt
  | some n => if n = 0 then dflt else n

/-- `getNotes` of the durable service.  `mkdirError` is the outcome of
`ensureStorageExists` (a `fs.mkdir` failure there is wrapped and re-thrown
before the inner `try`); `r` is the outcome of reading and parsing the
backing file.  Every read or parse failure degrades to the empty collection
at the current version. -/
def getNotesDurable (mkdirError : Option String) (r : ReadOutcome) :
    Except String NoteCollection :=
  match mkdirError with
  | some m => Except.error ("Failed to create notes directory: " ++ m)
  | none =>
    Except.ok (match r with
      | ReadOutcome.fileMissing => ⟨[], CURRENT_VERSION⟩
      | ReadOutcome.parseFailure => ⟨[], CURRENT_VERSION⟩
      | ReadOutcome.parsed notes version => ⟨notes.getD [], jsOrNat version CURRENT_VERSION⟩)

/-- `saveNote` of the durable service.  `st` is the collection currently
parsed from the backing file, `writeError` the outcome of `fs.writeFile`.
The size check measures `JSON.stringify(collection).length` — UTF-16 code
units, not bytes — after the upsert.  The `catch` block wraps every fault
(the capacity error included) into a generic `Failed to save note` error and
re-throws it. -/
def saveNoteDurable (st : NoteCollection) (note : Note) (freshId : String)
    (writeError : Option String) : NoteCollection × Except TryFault Note :=
  let note' := if note.id = "" then { note with id := freshId } else note
  let newNotes :=
    match findIndex (fun n => n.id == note'.id) st.notes with
    | some i => st.notes.set i note'
    | none => st.notes ++ [note']
  let collection : NoteCollection := ⟨newNotes, st.version⟩
  let contentSize := utf16Len (stringifyCollection collection)
  if MAX_NOTES_SIZE < contentSize then
    (st, Except.error (TryFault.other ("Failed to save note: " ++ jsErrorString TryFault.capacity)))
  else
    match writeError with
    | some m => (st, Except.error (TryFault.other ("Failed to save note: " ++ m)))
    | none => (collection, Except.ok note')

/-! ### Claim-side definitions -/

/-- Modelled from the spec: the collection contents after inserting or
replacing the given note — replace in place when a stored note carries the
same identifier, append otherwise. -/
def claimUpsert (notes : List Note) (note : Note) : List Note :=
  match findIndex (fun n => n.id == note.id) notes with
  | some i => notes.set i note
  | none => notes ++ [note]

/-! ### Length algebra -/

lemma utf8Len_append (a b : List Char) : utf8Len (a ++ b) = utf8Len a + utf8Len b := by
  induction a with
  | nil => simp [utf8Len]
  | cons c cs ih => simp [utf8Len, ih]; omega

lemma byteLen_append (s t : String) : byteLen (s ++ t) = byteLen s + byteLen t := by
  simp [byteLen, String.data_append, utf8Len_append]

lemma byteLen_mk (l : List Char) : byteLen (String.mk l) = utf8Len l := rfl

lemma utf16LenList_append (a b : List Char) :
    utf16LenList (a ++ b) = utf16LenList a + utf16LenList b := by
  induction a with
  | nil => simp [utf16LenList]
  | cons c cs ih => simp [utf16LenList, ih]; omega

lemma utf16Len_append (s t : String) : utf16Len (s ++ t) = utf16Len s + utf16Len t := by
  simp [utf16Len, String.data_append, utf16LenList_append]

lemma utf16Len_mk (l : List Char) : utf16Len (String.mk l) = utf16LenList l := rfl

lemma jsonEscList_replicate (c : Char) (hc : jsonEscChar c = [c]) (n : Nat) :
    jsonEscList (List.replicate n c) = List.replicate n c := by
  induction n with
  | zero => rfl
  | succ n ih => simp [List.replicate_succ, jsonEscList, hc, ih]

lemma utf8Len_replicate (c : Char) (n : Nat) :
    utf8Len (List.replicate n c) = n * c.utf8Size := by
  induction n with
  | zero => simp [utf8Len]
  | succ n ih => simp [List.replicate_succ, utf8Len, ih]; ring

lemma utf16LenList_replicate (c : Char) (n : Nat) :
    utf16LenList (List.replicate n c) = n * utf16Units c := by
  induction n with
  | zero => simp [utf16LenList]
  | succ n ih => simp [List.replicate_succ, utf16LenList, ih]; ring

lemma joinSep_cons (sep x : String) (l : List String) (h : l ≠ []) :
    joinSep sep (x :: l) = x ++ sep ++ joinSep sep l := by
  cases l with
  | nil => exact absurd rfl h
  | cons y ys => rfl

lemma byteLen_joinSep_concat (l : List String) (y : String) :
    byteLen (joinSep "," (l ++ [y]))
      = byteLen (joinSep "," l) + (if l = [] then 0 else 1) + byteLen y := by
  induction l with
  | nil => simp [joinSep, byteLen, utf8Len]
  | cons x xs ih =>
    cases xs with
    | nil =>
      have h1 : byteLen "," = 1 := rfl
      simp [joinSep, byteLen_append, h1]
    | cons z zs =>
      have hne : (z :: zs) ++ [y] ≠ [] := by simp
      have hne2 : z :: zs ≠ ([] : List String) := by simp
      rw [List.cons_append, joinSep_cons _ _ _ hne, joinSep_cons _ _ _ hne2]
      simp only [byteLen_append, ih]
      simp
      omega

lemma byteLen_joinSep_set (l : List String) (i : Nat) (hi : i < l.length) (y : String) :
    byteLen (joinSep "," (l.set i y)) + byteLen (l.get ⟨i, hi⟩)
      = byteLen (joinSep "," l) + byteLen y := by
  induction l generalizing i with
  | nil => simp at hi
  | cons x xs ih =>
    cases i with
    | zero =>
      cases xs with
      | nil => simp [joinSep]; omega
      | cons z zs =>
        have hne : z :: zs ≠ ([] : List String) := by simp
        rw [List.set_cons_zero]
        rw [joinSep_cons _ _ _ hne, joinSep_cons _ _ _ hne]
        simp [byteLen_append]
        omega
    | succ j =>
      have hj : j < xs.length := by simpa using hi
      cases xs with
      | nil => simp at hj
      | cons z zs =>
        have hne : z :: zs ≠ ([] : List String) := by simp
        have hne2 : (z :: zs).set j y ≠ ([] : List String) := by
          intro hcontra
          have := congrArg List.length hcontra
          simp at this
        rw [List.set_cons_succ]
        rw [joinSep_cons _ _ _ hne2, joinSep_cons _ _ _ hne]
        have := ih j hj
        simp only [byteLen_append]
        simp only [List.get_cons_succ] at *
        omega

lemma byteLen_stringify_concat_vs_set (l : List Note) (i : Nat) (hi : i < l.length)
    (x : Note) (v : Nat) :
    byteLen (stringifyCollection ⟨l ++ [x], v⟩)
      = byteLen (stringifyCollection ⟨l.set i x, v⟩)
        + byteLen (stringifyNote (l.get ⟨i, hi⟩)) + 1 := by
  have hne : l.map stringifyNote ≠ [] := by
    cases l with
    | nil => simp at hi
    | cons a as => simp
  have hmi : i < (l.map stringifyNote).length := by simpa using hi
  have h1 := byteLen_joinSep_concat (l.map stringifyNote) (stringifyNote x)
  have h2 := byteLen_joinSep_set (l.map stringifyNote) i hmi (stringifyNote x)
  rw [if_neg hne] at h1
  have hget : (l.map stringifyNote).get ⟨i, hmi⟩ = stringifyNote (l.get ⟨i, hi⟩) := by
    simp [List.get_map]
  rw [hget] at h2
  simp only [stringifyCollection, byteLen_append, List.map_append, List.map_set,
    List.map_cons, List.map_nil] at *
  omega

/-! ### Concrete oversized notes -/

/-- A note whose single content line is `n` copies of the character `c`,
used to exercise the size checks. -/
def repNote (c : Char) (n : Nat) : Note :=
  ⟨"a", "", [String.mk (List.replicate n c)], [], [], 0, 0⟩

lemma byteLen_stringify_repNote (c : Char) (hc : jsonEscChar c = [c]) (n : Nat) :
    byteLen (stringifyCollection ⟨[repNote c n], CURRENT_VERSION⟩)
      = 114 + n * c.utf8Size := by
  have hzero : repNote c 0 = repNote 'x' 0 := rfl
  have h0 : byteLen (stringifyCollection ⟨[repNote 'x' 0], CURRENT_VERSION⟩) = 114 := by decide
  rw [show (114 : Nat) = byteLen (stringifyCollection ⟨[repNote 'x' 0], CURRENT_VERSION⟩)
    from h0.symm, ← hzero]
  simp only [stringifyCollection, stringifyNote, repNote, stringifyStrList, jsonQuote,
    List.map_cons, List.map_nil, joinSep, byteLen_append, byteLen_mk]
  simp only [jsonEscList_replicate c hc, utf8Len_replicate]
  simp only [Nat.zero_mul]
  omega

lemma byteLen_stringify_repNote_two (c : Char) (hc : jsonEscChar c = [c]) (n : Nat) :
    byteLen (stringifyCollection ⟨[repNote c n, repNote c n], CURRENT_VERSION⟩)
      = 205 + 2 * (n * c.utf8Size) := by
  have hzero : repNote c 0 = repNote 'x' 0 := rfl
  have h0 : byteLen (stringifyCollection ⟨[repNote 'x' 0, repNote 'x' 0], CURRENT_VERSION⟩)
      = 205 := by decide
  rw [show (205 : Nat)
      = byteLen (stringifyCollection ⟨[repNote 'x' 0, repNote 'x' 0], CURRENT_VERSION⟩)
    from h0.symm, ← hzero]
  simp only [stringifyCollection, stringifyNote, repNote, stringifyStrList, jsonQuote,
    List.map_cons, List.map_nil, joinSep, byteLen_append, byteLen_mk]
  simp only [jsonEscList_replicate c hc, utf8Len_replicate]
  simp only [Nat.zero_mul]
  omega

lemma utf16Len_stringify_repNote (c : Char) (hc : jsonEscChar c = [c]) (n : Nat) :
    utf16Len (stringifyCollection ⟨[repNote c n], CURRENT_VERSION⟩)
      = 114 + n * utf16Units c := by
  have hzero : repNote c 0 = repNote 'x' 0 := rfl
  have h0 : utf16Len (stringifyCollection ⟨[repNote 'x' 0], CURRENT_VERSION⟩) = 114 := by decide
  rw [show (114 : Nat) = utf16Len (stringifyCollection ⟨[repNote 'x' 0], CURRENT_VERSION⟩)
    from h0.symm, ← hzero]
  simp only [stringifyCollection, stringifyNote, repNote, stringifyStrList, jsonQuote,
    List.map_cons, List.map_nil, joinSep, utf16Len_append, utf16Len_mk]
  simp only [jsonEscList_replicate c hc, utf16LenList_replicate]
  simp only [Nat.zero_mul]
  omega

/-! ### `findIndex`, `set` and `Nodup` helpers -/

lemma findIndex_eq_none {α : Type} (p : α → Bool) (l : List α) :
    findIndex p l = none ↔ ∀ x ∈ l, p x = false := by
  induction l with
  | nil => simp [findIndex]
  | cons x xs ih =>
    by_cases hx : p x
    · simp [findIndex, hx]
    · simp [findIndex, hx, ih, Option.map_eq_none']

lemma findIndex_lt {α : Type} (p : α → Bool) (l : List α) (i : Nat)
    (h : findIndex p l = some i) : i < l.length := by
  induction l generalizing i with
  | nil => simp [findIndex] at h
  | cons x xs ih =>
    by_cases hx : p x
    · simp [findIndex, hx] at h
      simp only [List.length_cons]
      omega
    · simp [findIndex, hx, Option.map_eq_some'] at h
      obtain ⟨j, hj, rfl⟩ := h
      have := ih j hj
      simp only [List.length_cons]
      omega

lemma findIndex_get {α : Type} (p : α → Bool) (l : List α) (i : Nat)
    (h : findIndex p l = some i) (hi : i < l.length) : p (l.get ⟨i, hi⟩) = true := by
  induction l generalizing i with
  | nil => simp [findIndex] at h
  | cons x xs ih =>
    by_cases hx : p x
    · simp [findIndex, hx] at h
      subst h
      simpa using hx
    · simp [findIndex, hx, Option.map_eq_some'] at h
      obtain ⟨j, hj, rfl⟩ := h
      have hjlt : j < xs.length := findIndex_lt p xs j hj
      simpa using ih j hj hjlt

lemma set_get_self {α : Type} (l : List α) (i : Nat) (a : α) (hi : i < l.length)
    (h : l.get ⟨i, hi⟩ = a) : l.set i a = l := by
  induction l generalizing i with
  | nil => simp at hi
  | cons x xs ih =>
    cases i with
    | zero => simp at h; simp [h]
    | succ j =>
      have hj : j < xs.length := by simpa using hi
      simp only [List.get_cons_succ] at h
      simp [List.set_cons_succ, ih j hj h]

lemma mem_set_self {α : Type} (l : List α) (i : Nat) (a : α) (hi : i < l.length) :
    a ∈ l.set i a := by
  induction l generalizing i with
  | nil => simp at hi
  | cons x xs ih =>
    cases i with
    | zero => simp
    | succ j =>
      have hj : j < xs.length := by simpa using hi
      simp [List.set_cons_succ]
      right
      exact ih j hj

lemma nodup_ids_set (l : List Note) (i : Nat) (hi : i < l.length) (x : Note)
    (hn : (l.map Note.id).Nodup) (hid : (l.get ⟨i, hi⟩).id = x.id) :
    ((l.set i x).map Note.id).Nodup := by
  rw [List.map_set]
  have hmi : i < (l.map Note.id).length := by simpa using hi
  have hbridge : (l.map Note.id).get ⟨i, hmi⟩ = (l.get ⟨i, hi⟩).id := by
    simp [List.get_map]
  have hget : (l.map Note.id).get ⟨i, hmi⟩ = x.id := by rw [hbridge, hid]
  rw [set_get_self (l.map Note.id) i x.id hmi hget]
  exact hn

lemma nodup_ids_concat (l : List Note) (x : Note)
    (hn : (l.map Note.id).Nodup) (hx : x.id ∉ l.map Note.id) :
    ((l ++ [x]).map Note.id).Nodup := by
  rw [List.map_append]
  rw [List.nodup_append]
  refine ⟨hn, by simp, ?_⟩
  intro a ha hb
  simp at hb
  subst hb
  exact hx ha

lemma filter_id_length_one (l : List Note) (x : Note)
    (hn : (l.map Note.id).Nodup) (hx : x ∈ l) :
    (l.filter (fun m => m.id == x.id)).length = 1 := by
  induction l with
  | nil => simp at hx
  | cons y ys ih =>
    have hn2 : (∀ m ∈ ys, ¬ m.id = y.id) ∧ (ys.map Note.id).Nodup := by
      simpa [List.nodup_cons] using hn
    by_cases hy : y.id = x.id
    · have hfil : ys.filter (fun m => m.id == x.id) = [] := by
        rw [List.filter_eq_nil_iff]
        intro m hm
        simp only [beq_iff_eq]
        intro hmx
        exact hn2.1 m hm (by rw [hmx, ← hy])
      simp [List.filter_cons, hy, hfil]
    · have hxy : x ≠ y := fun h => hy (by rw [h])
      have hxys : x ∈ ys := by
        cases hx with
        | head => exact absurd rfl hxy.symm
        | tail _ h => exact h
      have := ih hn2.2 hxys
      simp [List.filter_cons, hy, this]

/-! ### Behavioral helpers for `saveNote` -/

lemma saveNote_spec (st : NoteCollection) (note : Note) (fid : String) :
    saveNote st note fid =
      if MAX_NOTES_SIZE
          < byteLen (stringifyCollection ⟨st.notes ++ [note], CURRENT_VERSION⟩) then
        (st, Except.error TryFault.capacity)
      else
        let note' := if note.id = "" then { note with id := fid } else note
        match findIndex (fun n => n.id == note'.id) st.notes with
        | some i => (⟨st.notes.set i note', st.version⟩, Except.ok note')
        | none => (⟨st.notes ++ [note'], st.version⟩, Except.ok note') := rfl

lemma saveNote_ok_elim (st : NoteCollection) (note : Note) (fid : String)
    (st' : NoteCollection) (ret : Note)
    (h : saveNote st note fid = (st', Except.ok ret)) :
    ret = (if note.id = "" then { note with id := fid } else note) ∧
      ((∃ i, findIndex (fun n => n.id == ret.id) st.notes = some i ∧
          st' = ⟨st.notes.set i ret, st.version⟩) ∨
        (findIndex (fun n => n.id == ret.id) st.notes = none ∧
          st' = ⟨st.notes ++ [ret], st.version⟩)) := by
  rw [saveNote_spec] at h
  by_cases hsz : MAX_NOTES_SIZE
      < byteLen (stringifyCollection ⟨st.notes ++ [note], CURRENT_VERSION⟩)
  · rw [if_pos hsz] at h
    simp at h
  · rw [if_neg hsz] at h
    simp only at h
    cases hidx : findIndex
        (fun n => n.id == (if note.id = "" then { note with id := fid } else note).id)
        st.notes with
    | some i =>
      rw [hidx] at h
      simp only [Prod.mk.injEq, Except.ok.injEq] at h
      obtain ⟨hst, hret⟩ := h
      subst hret
      exact ⟨rfl, Or.inl ⟨i, hidx, hst.symm⟩⟩
    | none =>
      rw [hidx] at h
      simp only [Prod.mk.injEq, Except.ok.injEq] at h
      obtain ⟨hst, hret⟩ := h
      subst hret
      exact ⟨rfl, Or.inr ⟨hidx, hst.symm⟩⟩

lemma findIndex_id_unique (l : List Note) (x : Note)
    (hn : (l.map Note.id).Nodup) (hx : x ∈ l) :
    ∃ i, ∃ hi : i < l.length,
      findIndex (fun n => n.id == x.id) l = some i ∧ l.get ⟨i, hi⟩ = x := by
  induction l with
  | nil => simp at hx
  | cons y ys ih =>
    have hn2 : (∀ m ∈ ys, ¬ m.id = y.id) ∧ (ys.map Note.id).Nodup := by
      simpa [List.nodup_cons] using hn
    by_cases hy : y.id = x.id
    · have hxy : x = y := by
        cases hx with
        | head => rfl
        | tail _ hmem => exact absurd hy (by
            intro hcontra
            exact hn2.1 x hmem (by rw [hcontra]))
      refine ⟨0, by simp, ?_, by simpa using hxy.symm⟩
      simp [findIndex, hy]
    · have hxy : x ≠ y := fun h => hy (by rw [h])
      have hxys : x ∈ ys := by
        cases hx with
        | head => exact absurd rfl hxy.symm
        | tail _ h => exact h
      obtain ⟨j, hj, hfind, hget⟩ := ih hn2.2 hxys
      refine ⟨j + 1, by simpa using hj, ?_, by simpa using hget⟩
      simp [findIndex, hy, hfind]

/-! ### Whitespace and lower-casing -/

lemma toLower_of_space (c : Char) (h : jsIsSpace c = true) : Char.toLower c = c := by
  have hlow : c.toNat < 65 ∨ 90 < c.toNat := by
    simp only [jsIsSpace, Bool.or_eq_true, beq_iff_eq, decide_eq_true_eq,
      Bool.and_eq_true] at h
    rcases h with ((((((((((((((h | h) | h) | h) | h) | h) | h) | h) | ⟨h1, h2⟩) | h) | h) | h) | h) | h) | h)
    all_goals first
      | (subst h; decide)
      | omega
  have hcond : ¬(c.toNat ≥ 65 ∧ c.toNat ≤ 90) := by omega
  simp [Char.toLower, hcond]

lemma jsIsSpace_toLower (c : Char) (h : jsIsSpace c = true) :
    jsIsSpace (Char.toLower c) = true := by
  rw [toLower_of_space c h]
  exact h

lemma splitWsSkip_all_space (cs : List Char) (h : ∀ c ∈ cs, jsIsSpace c = true) :
    splitWsSkip cs = [""] := by
  induction cs with
  | nil => rfl
  | cons c cs ih =>
    rw [splitWsSkip]
    rw [if_pos (h c (List.mem_cons_self c cs))]
    exact ih (fun d hd => h d (List.mem_cons_of_mem c hd))

lemma splitWs_all_space (cs : List Char) (h : ∀ c ∈ cs, jsIsSpace c = true) :
    ∀ t ∈ splitWsAux cs [], t = "" := by
  cases cs with
  | nil =>
    intro t ht
    simpa [splitWsAux] using ht
  | cons c cs =>
    intro t ht
    rw [splitWsAux, if_pos (h c (List.mem_cons_self c cs))] at ht
    rw [splitWsSkip_all_space cs (fun d hd => h d (List.mem_cons_of_mem c hd))] at ht
    simpa using ht

lemma listHasSub_empty (l : List Char) : listHasSub l [] = true := by
  cases l with
  | nil => rfl
  | cons c cs => rw [listHasSub]; rfl

lemma jsIncludes_empty (s : String) : jsIncludes s "" = true :=
  listHasSub_empty s.data

lemma string_mk_append (l1 l2 : List Char) :
    String.mk l1 ++ String.mk l2 = String.mk (l1 ++ l2) := rfl

lemma jsToLower_append (a b : String) :
    jsToLower (a ++ b) = jsToLower a ++ jsToLower b := by
  simp [jsToLower, String.data_append, string_mk_append]

lemma jsToLower_joinSep (l : List String) :
    jsToLower (joinSep " " l) = joinSep " " (l.map jsToLower) := by
  induction l with
  | nil => rfl
  | cons x xs ih =>
    cases xs with
    | nil => rfl
    | cons y ys =>
      have hne : y :: ys ≠ ([] : List String) := by simp
      have hne2 : (y :: ys).map jsToLower ≠ ([] : List String) := by simp
      rw [joinSep_cons _ _ _ hne, List.map_cons, joinSep_cons _ _ _ hne2]
      rw [jsToLower_append, jsToLower_append]
      rw [show jsToLower " " = " " from by decide]
      rw [ih]

lemma searchableContent_eq (n : Note) :
    jsToLower (joinSep " " (n.title :: (n.content ++ n.tags))) = searchableContent n := by
  rw [jsToLower_joinSep]
  simp [searchableContent, List.map_cons, List.map_append]

lemma saveNote_error_elim (st : NoteCollection) (note : Note) (fid : String)
    (st' : NoteCollection) (e : TryFault)
    (h : saveNote st note fid = (st', Except.error e)) :
    e = TryFault.capacity ∧ st' = st := by
  rw [saveNote_spec] at h
  by_cases hsz : MAX_NOTES_SIZE
      < byteLen (stringifyCollection ⟨st.notes ++ [note], CURRENT_VERSION⟩)
  · rw [if_pos hsz] at h
    simp only [Prod.mk.injEq, Except.error.injEq] at h
    exact ⟨h.2.symm, h.1.symm⟩
  · rw [if_neg hsz] at h
    simp only at h
    cases hidx : findIndex
        (fun n => n.id == (if note.id = "" then { note with id := fid } else note).id)
        st.notes with
    | some i => rw [hidx] at h; simp at h
    | none => rw [hidx] at h; simp at h

/-! ### Fixtures -/

/-- A small note with a fixed id. -/
def demoNote : Note := ⟨"n1", "t", [], [], [], 0, 0⟩

/-- Fixture: a note about context preservation. -/
def fixtureNote1 : Note :=
  ⟨"1", "Context Test Note", ["This is a test note about context preservation"],
    ["context"], ["task1"], 0, 0⟩

/-- Fixture: an unrelated note. -/
def fixtureNote2 : Note :=
  ⟨"2", "Unrelated Note", ["This note is about something else"], ["other"], ["task2"], 0, 0⟩

/-- Fixture collection holding the two notes above. -/
def fixtureCollection : NoteCollection := ⟨[fixtureNote1, fixtureNote2], 1⟩

/-- A note all of whose tokens are at most 3 characters long. -/
def tinyNote : Note := ⟨"n1", "ab", ["cd"], [], [], 0, 0⟩

/-- A 3-byte, single-UTF-16-unit character (HIRAGANA A). -/
def wideChar : Char := Char.ofNat 0x3042

/-! ### Claim theorems -/

/-- Claim C1, amended: for the in-memory service, whenever the UTF-8 byte
length of the serialized collection after inserting or replacing the incoming
note (with the id it carries at save time) exceeds 1,048,576 bytes, `saveNote`
rejects with the capacity error and the stored collection, as observed by a
subsequent `getNotes`, is exactly what it was before the call.  (The durable
variant instead measures UTF-16 code units of the post-upsert serialization,
so the byte-length form of the claim fails there; see the counterexample.) -/
theorem saveNote_rejects_oversize (st : NoteCollection) (note : Note) (fid : String)
    (h : MAX_NOTES_SIZE
      < byteLen (stringifyCollection ⟨claimUpsert st.notes note, CURRENT_VERSION⟩)) :
    saveNote st note fid = (st, Except.error TryFault.capacity) ∧
    getNotes (saveNote st note fid).1 = getNotes st := by
  have hbig : MAX_NOTES_SIZE
      < byteLen (stringifyCollection ⟨st.notes ++ [note], CURRENT_VERSION⟩) := by
    cases hidx : findIndex (fun n => n.id == note.id) st.notes with
    | none =>
      have hup : claimUpsert st.notes note = st.notes ++ [note] := by
        unfold claimUpsert
        rw [hidx]
      rw [hup] at h
      exact h
    | some i =>
      have hup : claimUpsert st.notes note = st.notes.set i note := by
        unfold claimUpsert
        rw [hidx]
      rw [hup] at h
      have hi := findIndex_lt _ _ _ hidx
      have := byteLen_stringify_concat_vs_set st.notes i hi note CURRENT_VERSION
      omega
  have h1 : saveNote st note fid = (st, Except.error TryFault.capacity) := by
    rw [saveNote_spec, if_pos hbig]
  exact ⟨h1, by rw [h1]⟩

/-- Witness for C1: a note of 2²⁰ `x` characters pushes the serialized
collection over the budget, and saving it into the empty store is rejected
with the store unchanged. -/
theorem saveNote_rejects_oversize_witness :
    MAX_NOTES_SIZE < byteLen (stringifyCollection
      ⟨claimUpsert (⟨[], 1⟩ : NoteCollection).notes (repNote 'x' 1048576), CURRENT_VERSION⟩) ∧
    saveNote ⟨[], 1⟩ (repNote 'x' 1048576) "fresh-id"
      = (⟨[], 1⟩, Except.error TryFault.capacity) := by
  have hx : jsonEscChar 'x' = ['x'] := by decide
  have hsz := byteLen_stringify_repNote 'x' hx 1048576
  have h : MAX_NOTES_SIZE < byteLen (stringifyCollection
      ⟨claimUpsert (⟨[], 1⟩ : NoteCollection).notes (repNote 'x' 1048576), CURRENT_VERSION⟩) := by
    have hup : claimUpsert (⟨[], 1⟩ : NoteCollection).notes (repNote 'x' 1048576)
        = [repNote 'x' 1048576] := rfl
    rw [hup, hsz, show ('x').utf8Size = 1 from by decide]
    norm_num [MAX_NOTES_SIZE]
  exact ⟨h, (saveNote_rejects_oversize ⟨[], 1⟩ (repNote 'x' 1048576) "fresh-id" h).1⟩

/-- Counterexample for C1 as stated: the durable `saveNote` measures UTF-16
code units, so a collection of 400,000 three-byte characters (1,314,114 bytes
serialized, over the byte budget) is accepted and stored rather than
rejected. -/
theorem saveNoteDurable_byteBudget_cex :
    MAX_NOTES_SIZE < byteLen (stringifyCollection
      ⟨claimUpsert (⟨[], 1⟩ : NoteCollection).notes (repNote wideChar 400000),
        CURRENT_VERSION⟩) ∧
    saveNoteDurable ⟨[], 1⟩ (repNote wideChar 400000) "fresh-id" none
      = (⟨[repNote wideChar 400000], 1⟩, Except.ok (repNote wideChar 400000)) := by
  have hwc : jsonEscChar wideChar = [wideChar] := by decide
  have hbyte := byteLen_stringify_repNote wideChar hwc 400000
  have hutf16 := utf16Len_stringify_repNote wideChar hwc 400000
  constructor
  · have hup : claimUpsert (⟨[], 1⟩ : NoteCollection).notes (repNote wideChar 400000)
        = [repNote wideChar 400000] := rfl
    rw [hup, hbyte, show wideChar.utf8Size = 3 from by decide]
    norm_num [MAX_NOTES_SIZE]
  · have h16 : utf16Len (stringifyCollection ⟨[repNote wideChar 400000], 1⟩) = 400114 := by
      rw [show (1 : Nat) = CURRENT_VERSION from rfl, hutf16,
        show utf16Units wideChar = 1 from by decide]
    simp only [saveNoteDurable]
    rw [if_neg (show ¬((repNote wideChar 400000).id = "") from by decide)]
    simp only [findIndex, List.nil_append]
    rw [h16]
    rw [if_neg (by norm_num [MAX_NOTES_SIZE])]

lemma saveNote_cases (st : NoteCollection) (note : Note) (fid : String) :
    saveNote st note fid =
      if MAX_NOTES_SIZE
          < byteLen (stringifyCollection ⟨st.notes ++ [note], CURRENT_VERSION⟩) then
        (st, Except.error TryFault.capacity)
      else
        match findIndex
            (fun n => n.id == (if note.id = "" then { note with id := fid } else note).id)
            st.notes with
        | some i =>
          (⟨st.notes.set i (if note.id = "" then { note with id := fid } else note),
            st.version⟩,
            Except.ok (if note.id = "" then { note with id := fid } else note))
        | none =>
          (⟨st.notes ++ [if note.id = "" then { note with id := fid } else note],
            st.version⟩,
            Except.ok (if note.id = "" then { note with id := fid } else note)) := rfl

lemma saveNote_eval_capacity (st : NoteCollection) (note : Note) (fid : String)
    (hsz : MAX_NOTES_SIZE
      < byteLen (stringifyCollection ⟨st.notes ++ [note], CURRENT_VERSION⟩)) :
    saveNote st note fid = (st, Except.error TryFault.capacity) := by
  rw [saveNote_cases, if_pos hsz]

lemma saveNote_eval_append (st : NoteCollection) (note : Note) (fid : String)
    (hsz : ¬ MAX_NOTES_SIZE
      < byteLen (stringifyCollection ⟨st.notes ++ [note], CURRENT_VERSION⟩))
    (hid : note.id ≠ "")
    (hfind : findIndex (fun n => n.id == note.id) st.notes = none) :
    saveNote st note fid = (⟨st.notes ++ [note], st.version⟩, Except.ok note) := by
  rw [saveNote_cases, if_neg hsz, if_neg hid, hfind]

/-- Claim C2, amended: in the in-memory service (whose `catch` is shared
verbatim with the second durable variant), the only error `saveNote` surfaces
is the capacity violation, and the catch block turns every other fault into a
normal return of the input note; the first durable variant instead wraps and
re-throws every save-time fault — capacity included — as a generic
`Failed to save note` error, so there the claim fails (see counterexample). -/
theorem saveNote_error_policy :
    (∀ st note fid st' e,
      saveNote st note fid = (st', Except.error e) → e = TryFault.capacity) ∧
    (∀ note msg, handleSaveError note (TryFault.other msg) = Except.ok note) ∧
    (∀ note, handleSaveError note TryFault.capacity = Except.error TryFault.capacity) := by
  refine ⟨?_, fun note msg => rfl, fun note => rfl⟩
  intro st note fid st' e h
  exact (saveNote_error_elim st note fid st' e h).1

/-- Witness for C2: a non-capacity fault is swallowed and the input note is
returned. -/
theorem saveNote_error_policy_witness :
    TryFault.other "boom" ≠ TryFault.capacity ∧
    handleSaveError demoNote (TryFault.other "boom") = Except.ok demoNote :=
  ⟨by decide, saveNote_error_policy.2.1 demoNote "boom"⟩

/-- Counterexample for C2 as stated: in the durable service a failing
`fs.writeFile` makes `saveNote` reject with a generic wrapped error instead
of being contained and returning the input note. -/
theorem saveNoteDurable_fault_cex :
    saveNoteDurable ⟨[], 1⟩ demoNote "fresh-id" (some "Error: EACCES: permission denied")
      = (⟨[], 1⟩,
        Except.error
          (TryFault.other "Failed to save note: Error: EACCES: permission denied")) ∧
    TryFault.other "Failed to save note: Error: EACCES: permission denied"
      ≠ TryFault.capacity := by
  constructor
  · rfl
  · decide

/-- A note that replaces `fixtureNote2` (same id, new title). -/
def demoReplace : Note := ⟨"2", "T", [], [], [], 0, 0⟩

/-- Claim C3: against a collection with unique ids, an accepted save either
replaces in place the unique stored note carrying the same id (same position,
length unchanged) or appends the note at the end, and the resulting
collection again has pairwise-distinct ids. -/
theorem saveNote_upsert (st : NoteCollection) (note : Note) (fid : String)
    (st' : NoteCollection) (ret : Note)
    (hn : (st.notes.map Note.id).Nodup)
    (h : saveNote st note fid = (st', Except.ok ret)) :
    ((∃ i, ∃ hi : i < st.notes.length,
        (st.notes.get ⟨i, hi⟩).id = ret.id ∧
        st'.notes = st.notes.set i ret ∧ st'.notes.length = st.notes.length) ∨
      ((∀ m ∈ st.notes, m.id ≠ ret.id) ∧ st'.notes = st.notes ++ [ret])) ∧
    (st'.notes.map Note.id).Nodup := by
  obtain ⟨hret, hcases⟩ := saveNote_ok_elim st note fid st' ret h
  cases hcases with
  | inl hsome =>
    obtain ⟨i, hfind, hst⟩ := hsome
    have hi := findIndex_lt _ _ _ hfind
    have hgid : (st.notes.get ⟨i, hi⟩).id = ret.id := by
      simpa using findIndex_get _ _ _ hfind hi
    subst hst
    refine ⟨Or.inl ⟨i, hi, hgid, rfl, by simp⟩, ?_⟩
    exact nodup_ids_set st.notes i hi ret hn hgid
  | inr hnone =>
    obtain ⟨hfind, hst⟩ := hnone
    have hall : ∀ m ∈ st.notes, m.id ≠ ret.id := by
      intro m hm
      simpa using (findIndex_eq_none _ _).mp hfind m hm
    have hnotin : ret.id ∉ st.notes.map Note.id := by
      intro hmem
      obtain ⟨m, hm, hmid⟩ := List.mem_map.mp hmem
      exact hall m hm hmid
    subst hst
    exact ⟨Or.inr ⟨hall, rfl⟩, nodup_ids_concat st.notes ret hn hnotin⟩

/-- Witness for C3: replacing the second fixture note in place keeps the ids
unique. -/
theorem saveNote_upsert_witness :
    (fixtureCollection.notes.map Note.id).Nodup ∧
    saveNote fixtureCollection demoReplace "fresh-id"
      = (⟨[fixtureNote1, demoReplace], 1⟩, Except.ok demoReplace) ∧
    (((⟨[fixtureNote1, demoReplace], 1⟩ : NoteCollection).notes.map Note.id)).Nodup := by
  refine ⟨by decide, by decide, ?_⟩
  exact (saveNote_upsert fixtureCollection demoReplace "fresh-id"
    ⟨[fixtureNote1, demoReplace], 1⟩ demoReplace (by decide) (by decide)).2

/-- A note arriving at the store without an identifier. -/
def emptyIdNote : Note := ⟨"", "T", [], [], [], 0, 0⟩

/-- `emptyIdNote` after the store assigned it the generated id. -/
def savedNote : Note := ⟨"uuid-77", "T", [], [], [], 0, 0⟩

/-- Claim C8: when the incoming note's id is empty, an accepted save stores
the note under the (assumed fresh and non-empty) generated identifier,
returns the note carrying exactly that id, and the stored collection holds a
single note with it. -/
theorem saveNote_fresh_id (st : NoteCollection) (note : Note) (fid : String)
    (st' : NoteCollection) (ret : Note)
    (hempty : note.id = "") (hfid : fid ≠ "")
    (hfresh : fid ∉ st.notes.map Note.id)
    (h : saveNote st note fid = (st', Except.ok ret)) :
    ret = { note with id := fid } ∧ ret.id ≠ "" ∧
    st'.notes = st.notes ++ [ret] ∧
    (st'.notes.filter (fun m => m.id == ret.id)).length = 1 := by
  obtain ⟨hret, hcases⟩ := saveNote_ok_elim st note fid st' ret h
  rw [if_pos hempty] at hret
  have hretid : ret.id = fid := by rw [hret]
  cases hcases with
  | inl hsome =>
    obtain ⟨i, hfind, hst⟩ := hsome
    have hi := findIndex_lt _ _ _ hfind
    have hgid : (st.notes.get ⟨i, hi⟩).id = ret.id := by
      simpa using findIndex_get _ _ _ hfind hi
    exfalso
    apply hfresh
    have hmem : (st.notes.get ⟨i, hi⟩).id ∈ st.notes.map Note.id :=
      List.mem_map_of_mem Note.id (st.notes.get_mem _ _)
    rwa [hgid, hretid] at hmem
  | inr hnone =>
    obtain ⟨hfind, hst⟩ := hnone
    have hall : ∀ m ∈ st.notes, m.id ≠ ret.id := by
      intro m hm
      simpa using (findIndex_eq_none _ _).mp hfind m hm
    refine ⟨hret, by rw [hretid]; exact hfid, by rw [hst], ?_⟩
    rw [hst]
    rw [List.filter_append]
    have hfil : st.notes.filter (fun m => m.id == ret.id) = [] := by
      rw [List.filter_eq_nil_iff]
      intro m hm
      simpa using hall m hm
    rw [hfil]
    simp

/-- Witness for C8: saving a note with an empty id into the fixture store
appends it under the generated id `uuid-77`, which is then unique. -/
theorem saveNote_fresh_id_witness :
    emptyIdNote.id = "" ∧ ("uuid-77" : String) ≠ "" ∧
    "uuid-77" ∉ fixtureCollection.notes.map Note.id ∧
    savedNote = { emptyIdNote with id := "uuid-77" } ∧
    (((⟨[fixtureNote1, fixtureNote2, savedNote], 1⟩ : NoteCollection).notes.filter
      (fun m => m.id == savedNote.id)).length = 1) := by
  refine ⟨by decide, by decide, by decide, by decide, ?_⟩
  exact (saveNote_fresh_id fixtureCollection emptyIdNote "uuid-77"
    ⟨[fixtureNote1, fixtureNote2, savedNote], 1⟩ savedNote
    (by decide) (by decide) (by decide) (by decide)).2.2.2

/-- Claim C9, amended: for a note with a fixed non-empty id and a store with
unique ids, if the first save is accepted and the size check of the second
save also passes (the check measures the collection with the note appended a
second time, not the unchanged upsert result), then the second save succeeds,
leaves the collection exactly as after the first save, and the collection
holds exactly one entry with that id.  Without the extra size hypothesis the
claim fails: see the counterexample, where the first save is accepted and the
identical second save is rejected. -/
theorem saveNote_idem (st : NoteCollection) (note : Note) (fid : String)
    (st1 : NoteCollection) (r1 : Note)
    (hid : note.id ≠ "")
    (hn : (st.notes.map Note.id).Nodup)
    (h1 : saveNote st note fid = (st1, Except.ok r1))
    (h2 : ¬ MAX_NOTES_SIZE
      < byteLen (stringifyCollection ⟨st1.notes ++ [note], CURRENT_VERSION⟩)) :
    saveNote st1 note fid = (st1, Except.ok note) ∧
    (st1.notes.filter (fun m => m.id == note.id)).length = 1 := by
  obtain ⟨hret, hcases⟩ := saveNote_ok_elim st note fid st1 r1 h1
  rw [if_neg hid] at hret
  subst hret
  have hmemnodup : r1 ∈ st1.notes ∧ (st1.notes.map Note.id).Nodup := by
    cases hcases with
    | inl hsome =>
      obtain ⟨i, hfind, hst⟩ := hsome
      have hi := findIndex_lt _ _ _ hfind
      have hgid : (st.notes.get ⟨i, hi⟩).id = r1.id := by
        simpa using findIndex_get _ _ _ hfind hi
      subst hst
      exact ⟨mem_set_self st.notes i r1 hi, nodup_ids_set st.notes i hi r1 hn hgid⟩
    | inr hnone =>
      obtain ⟨hfind, hst⟩ := hnone
      have hall : ∀ m ∈ st.notes, m.id ≠ r1.id := by
        intro m hm
        simpa using (findIndex_eq_none _ _).mp hfind m hm
      have hnotin : r1.id ∉ st.notes.map Note.id := by
        intro hmem
        obtain ⟨m, hm, hmid⟩ := List.mem_map.mp hmem
        exact hall m hm hmid
      subst hst
      exact ⟨by simp, nodup_ids_concat st.notes r1 hn hnotin⟩
  obtain ⟨hmem, hnodup1⟩ := hmemnodup
  obtain ⟨j, hj, hfind2, hget2⟩ := findIndex_id_unique st1.notes r1 hnodup1 hmem
  have hsave2 : saveNote st1 r1 fid = (st1, Except.ok r1) := by
    rw [saveNote_cases, if_neg h2, if_neg hid, hfind2]
    show ((⟨st1.notes.set j r1, st1.version⟩ : NoteCollection), Except.ok r1)
      = (st1, Except.ok r1)
    rw [set_get_self st1.notes j r1 hj hget2]
  exact ⟨hsave2, filter_id_length_one st1.notes r1 hnodup1 hmem⟩

/-- Witness for C9: a small note saved twice; the second save is a no-op
replace and the id occurs exactly once. -/
theorem saveNote_idem_witness :
    demoNote.id ≠ "" ∧
    ((⟨[], 1⟩ : NoteCollection).notes.map Note.id).Nodup ∧
    saveNote ⟨[], 1⟩ demoNote "fresh-id" = (⟨[demoNote], 1⟩, Except.ok demoNote) ∧
    (¬ MAX_NOTES_SIZE < byteLen (stringifyCollection
      ⟨(⟨[demoNote], 1⟩ : NoteCollection).notes ++ [demoNote], CURRENT_VERSION⟩)) ∧
    saveNote ⟨[demoNote], 1⟩ demoNote "fresh-id" = (⟨[demoNote], 1⟩, Except.ok demoNote) := by
  refine ⟨by decide, by decide, by decide, by decide, ?_⟩
  exact (saveNote_idem ⟨[], 1⟩ demoNote "fresh-id" ⟨[demoNote], 1⟩ demoNote
    (by decide) (by decide) (by decide) (by decide)).1

/-- Counterexample for C9 as stated: a 512 KiB note saved into the empty
store succeeds, but the second, identical save is rejected — the size check
always appends a fresh copy, so it measures roughly twice the collection. -/
theorem saveNote_twice_cex :
    saveNote ⟨[], 1⟩ (repNote 'x' 524288) "fresh-id"
      = (⟨[repNote 'x' 524288], 1⟩, Except.ok (repNote 'x' 524288)) ∧
    saveNote ⟨[repNote 'x' 524288], 1⟩ (repNote 'x' 524288) "fresh-id"
      = (⟨[repNote 'x' 524288], 1⟩, Except.error TryFault.capacity) := by
  have hx : jsonEscChar 'x' = ['x'] := by decide
  have h1sz := byteLen_stringify_repNote 'x' hx 524288
  have h2sz := byteLen_stringify_repNote_two 'x' hx 524288
  have hxs : ('x').utf8Size = 1 := by decide
  constructor
  · have := saveNote_eval_append ⟨[], 1⟩ (repNote 'x' 524288) "fresh-id"
      (by
        show ¬ MAX_NOTES_SIZE
          < byteLen (stringifyCollection ⟨[repNote 'x' 524288], CURRENT_VERSION⟩)
        rw [h1sz, hxs]
        norm_num [MAX_NOTES_SIZE])
      (by decide) rfl
    simpa using this
  · apply saveNote_eval_capacity
    show MAX_NOTES_SIZE
      < byteLen (stringifyCollection ⟨[repNote 'x' 524288, repNote 'x' 524288], CURRENT_VERSION⟩)
    rw [h2sz, hxs]
    norm_num [MAX_NOTES_SIZE]

/-- Claim C4: `searchNotes` returns exactly the stored notes for which every
whitespace-separated term of the lower-cased query occurs as a substring of
the lower-cased join of the note's title, content lines and tags, in original
collection order (the result is a sublist of the collection, with the
original multiplicities). -/
theorem searchNotes_spec (st : NoteCollection) (query : String) :
    (searchNotes st query).Sublist st.notes ∧
    (∀ n, n ∈ searchNotes st query ↔
      (n ∈ st.notes ∧ ∀ term ∈ splitWs (jsToLower query),
        jsIncludes (jsToLower (joinSep " " (n.title :: (n.content ++ n.tags)))) term
          = true)) ∧
    (∀ n, (searchNotes st query).count n
      = if ((splitWs (jsToLower query)).all
            (fun term => jsIncludes (searchableContent n) term)) = true
        then st.notes.count n else 0) := by
  refine ⟨List.filter_sublist st.notes, ?_, ?_⟩
  · intro n
    rw [searchNotes]
    simp only [List.mem_filter]
    constructor
    · rintro ⟨hmem, hall⟩
      refine ⟨hmem, ?_⟩
      intro term hterm
      rw [searchableContent_eq]
      exact List.all_eq_true.mp hall term hterm
    · rintro ⟨hmem, hall⟩
      refine ⟨hmem, ?_⟩
      rw [List.all_eq_true]
      intro term hterm
      rw [← searchableContent_eq]
      exact hall term hterm
  · intro n
    by_cases hp : ((splitWs (jsToLower query)).all
        (fun term => jsIncludes (searchableContent n) term)) = true
    · rw [if_pos hp, searchNotes]
      exact List.count_filter hp
    · rw [if_neg hp, searchNotes]
      rw [List.count_eq_zero]
      intro hcontra
      rw [List.mem_filter] at hcontra
      exact hp hcontra.2

/-- Witness for C4 at the two-note fixture and the query of the test suite. -/
theorem searchNotes_spec_witness :
    (searchNotes fixtureCollection "context preservation").Sublist
      fixtureCollection.notes ∧
    searchNotes fixtureCollection "context preservation" = [fixtureNote1] :=
  ⟨(searchNotes_spec fixtureCollection "context preservation").1, by decide⟩

/-- Claim C10: an empty or whitespace-only query splits into empty-string
terms, every one of which is a substring of any searchable content, so
`searchNotes` returns the whole collection. -/
theorem searchNotes_blank (st : NoteCollection) (query : String)
    (h : query.data.all jsIsSpace = true) :
    searchNotes st query = st.notes := by
  have hterms : ∀ t ∈ splitWs (jsToLower query), t = "" := by
    show ∀ t ∈ splitWsAux (jsToLower query).data [], t = ""
    apply splitWs_all_space
    intro c hc
    have hc' : c ∈ query.data.map Char.toLower := hc
    obtain ⟨d, hd, rfl⟩ := List.mem_map.mp hc'
    exact jsIsSpace_toLower d (List.all_eq_true.mp h d hd)
  rw [searchNotes]
  rw [List.filter_eq_self]
  intro n _
  rw [List.all_eq_true]
  intro term hterm
  rw [hterms term hterm]
  exact jsIncludes_empty _

/-- Witness for C10: a whitespace-only query returns every fixture note. -/
theorem searchNotes_blank_witness :
    (("  " : String).data.all jsIsSpace = true) ∧
    searchNotes fixtureCollection "  " = fixtureCollection.notes :=
  ⟨by decide, searchNotes_blank fixtureCollection "  " (by decide)⟩

/-- Claim C5: `getRelevantNotes` scores each note as the number of its terms
present in the context term set divided by the larger of the two set sizes,
keeps exactly the scored notes strictly above the 0.1 threshold, and returns
them sorted by descending score; the sort is stable, so a pair with equal
scores keeps its original collection order. -/
theorem getRelevantNotes_spec (st : NoteCollection) (taskContext : String) :
    mkRat 1 10 = (1/10 : ℚ) ∧
    (∀ sn, sn ∈ getRelevantNotes st taskContext ↔
      (sn ∈ st.notes.map (scoreNote (contextTermsOf taskContext)) ∧
        jsGtNum sn.relevanceScore (mkRat 1 10) = true)) ∧
    (getRelevantNotes st taskContext).Sorted scoreGe ∧
    (∀ a b : ScoredNote, scoreQ a.relevanceScore = scoreQ b.relevanceScore →
      [a, b].Sublist
        ((st.notes.map (scoreNote (contextTermsOf taskContext))).filter
          (fun sn => jsGtNum sn.relevanceScore (mkRat 1 10))) →
      [a, b].Sublist (getRelevantNotes st taskContext)) ∧
    (∀ note, scoreNote (contextTermsOf taskContext) note =
      ⟨note,
        jsDiv
          ((noteTermsOf note).filter
            (fun term => term ∈ contextTermsOf taskContext)).length
          (max (contextTermsOf taskContext).length (noteTermsOf note).length)⟩) ∧
    (∀ a b : Nat, b ≠ 0 → jsDiv a b = JsNum.num ((a : ℚ) / (b : ℚ))) := by
  refine ⟨by rw [Rat.mkRat_eq_div]; norm_num, ?_, ?_, ?_, fun note => rfl, ?_⟩
  · intro sn
    simp only [getRelevantNotes]
    rw [List.mem_insertionSort, List.mem_filter]
  · simp only [getRelevantNotes]
    exact List.sorted_insertionSort scoreGe _
  · intro a b heq hsub
    simp only [getRelevantNotes]
    apply List.sublist_insertionSort ?_ hsub
    refine List.Pairwise.cons ?_ (List.pairwise_singleton _ _)
    intro b' hb'
    rw [List.mem_singleton] at hb'
    subst hb'
    exact le_of_eq heq.symm
  · intro a b hb
    rw [jsDiv, if_neg hb, Rat.mkRat_eq_div]
    push_cast
    rfl

/-- Witness for C5 at the fixture: the result is sorted and consists of the
context note carrying score 1/3. -/
theorem getRelevantNotes_spec_witness :
    (getRelevantNotes fixtureCollection "context preservation").Sorted scoreGe ∧
    getRelevantNotes fixtureCollection "context preservation"
      = [⟨fixtureNote1, JsNum.num (mkRat 1 3)⟩] :=
  ⟨(getRelevantNotes_spec fixtureCollection "context preservation").2.2.1, by decide⟩

/-- Claim C6, amended: when both the context term set and the note term set
are empty, the computed relevance score is `NaN` (JavaScript `0/0` — the
source has no divide-by-zero guard), not `0`; the note nevertheless fails the
strictly-greater-than-0.1 threshold, so it is treated as zero relevance and
never appears in the returned list. -/
theorem relevance_degenerate (taskContext : String) (n : Note)
    (h1 : contextTermsOf taskContext = []) (h2 : noteTermsOf n = []) :
    (scoreNote (contextTermsOf taskContext) n).relevanceScore = JsNum.nan ∧
    jsGtNum (scoreNote (contextTermsOf taskContext) n).relevanceScore (mkRat 1 10)
      = false ∧
    (∀ st sn, sn ∈ getRelevantNotes st taskContext → sn.note ≠ n) := by
  have hscore : (scoreNote (contextTermsOf taskContext) n).relevanceScore = JsNum.nan := by
    simp only [scoreNote, h1, h2]
    simp [jsDiv]
  refine ⟨hscore, by rw [hscore]; rfl, ?_⟩
  intro st sn hsn heq
  simp only [getRelevantNotes] at hsn
  rw [List.mem_insertionSort, List.mem_filter] at hsn
  obtain ⟨hmem, hgt⟩ := hsn
  obtain ⟨m, _, rfl⟩ := List.mem_map.mp hmem
  have hmn : m = n := heq
  subst hmn
  rw [hscore] at hgt
  simp [jsGtNum] at hgt

/-- Witness for C6 (amended): the two term sets of the fixture are empty and
the degenerate note fails the threshold. -/
theorem relevance_degenerate_witness :
    contextTermsOf "ab cd" = [] ∧ noteTermsOf tinyNote = [] ∧
    jsGtNum (scoreNote (contextTermsOf "ab cd") tinyNote).relevanceScore (mkRat 1 10)
      = false :=
  ⟨by decide, by decide,
    (relevance_degenerate "ab cd" tinyNote (by decide) (by decide)).2.1⟩

/-- Counterexample for C6 as stated: on the degenerate fixture the computed
score is `NaN`, not the claimed exact `0`. -/
theorem relevance_nan_cex :
    (scoreNote (contextTermsOf "ab cd") tinyNote).relevanceScore = JsNum.nan ∧
    JsNum.nan ≠ JsNum.num 0 :=
  ⟨by decide, by decide⟩

/-- Claim C7, amended: once the storage directory is available, the durable
`getNotes` never surfaces an error — a missing or unparseable backing file
degrades to the empty collection at the default version (also the fresh-store
behavior), and absent or falsy members of a parsed document are replaced by
the defaults; a failure to create the storage directory itself is, however,
re-thrown out of `getNotes` (see the counterexample). -/
theorem getNotesDurable_policy :
    (∀ r, ∃ c, getNotesDurable none r = Except.ok c) ∧
    getNotesDurable none ReadOutcome.fileMissing = Except.ok ⟨[], CURRENT_VERSION⟩ ∧
    getNotesDurable none ReadOutcome.parseFailure = Except.ok ⟨[], CURRENT_VERSION⟩ ∧
    (∀ notes version, getNotesDurable none (ReadOutcome.parsed notes version)
      = Except.ok ⟨notes.getD [], jsOrNat version CURRENT_VERSION⟩) := by
  refine ⟨?_, rfl, rfl, fun notes version => rfl⟩
  intro r
  cases r with
  | fileMissing => exact ⟨_, rfl⟩
  | parseFailure => exact ⟨_, rfl⟩
  | parsed notes version => exact ⟨_, rfl⟩

/-- Counterexample for C7 as stated: when the storage directory cannot be
created, the durable `getNotes` propagates an error instead of returning a
collection. -/
theorem getNotesDurable_mkdir_cex :
    getNotesDurable (some "Error: EACCES: permission denied") ReadOutcome.fileMissing
      = Except.error
        "Failed to create notes directory: Error: EACCES: permission denied" ∧
    (∀ c, getNotesDurable (some "Error: EACCES: permission denied") ReadOutcome.fileMissing
      ≠ Except.ok c) := by
  refine ⟨rfl, ?_⟩
  intro c h
  simp [getNotesDurable] at h
